import Mathlib

/-!
# GameStringer — verification of the core subsystems

A shallow embedding of the GameStringer core (memory patcher, pattern
scanner, translation cache, translation pipeline, IPC response
correlation, and the hook detour filters), translated from the C++
sources, together with theorems settling the specification claims.

Strings are modelled as lists of code units (`Nat`):
* wide (UTF-16) strings are lists of 16-bit units,
* narrow (ASCII/UTF-8) strings are lists of bytes.
Target-process memory is a function from byte addresses to byte values.
Machine-integer wraparound (`size_t`, `uint32_t`) is modelled with
explicit `% 2 ^ w` where the source arithmetic can overflow.
-/

namespace GameStringer

/-- A wide (UTF-16) string: list of 16-bit code units. -/
abbrev WStr := List Nat

/-! ## Generic byte-buffer helpers -/

/-- Write the elements of `src` into `buf` at consecutive positions
starting at `off` (models a sequence of `buf[off + j] = src[j]`
assignments; writes beyond the end of `buf` are dropped, which never
happens in the uses below). -/
def overlay : List Nat → Nat → List Nat → List Nat
  | buf, _, [] => buf
  | buf, off, x :: xs => overlay (buf.set off x) (off + 1) xs

/-- Little-endian byte encoding of `v` into exactly `u` bytes
(truncating the value modulo `2 ^ (8 * u)`, as a machine-integer store
does). -/
def leBytes : Nat → Nat → List Nat
  | 0, _ => []
  | u + 1, v => v % 256 :: leBytes u (v / 256)

/-- Serialize a list of code units, `unit` little-endian bytes each
(models writing a `wchar_t`/`char` array buffer of `l.length * unit`
bytes). -/
def unitsToBytes (unit : Nat) (l : List Nat) : List Nat :=
  l.foldr (fun v acc => leBytes unit v ++ acc) []

/-- Target-process memory after `WriteProcessMemory(addr, data)`:
the bytes of the range `[addr, addr + data.length)` come from `data`,
everything else is unchanged. -/
def writeBytes (m : Nat → Nat) (addr : Nat) (data : List Nat) : Nat → Nat :=
  fun a => if addr ≤ a ∧ a < addr + data.length then data.getD (a - addr) (m a) else m a

/-- Read `n` bytes of target memory starting at `addr`. -/
def readBytes (m : Nat → Nat) (addr n : Nat) : List Nat :=
  (List.range n).map (fun i => m (addr + i))

@[simp] theorem length_leBytes (u v : Nat) : (leBytes u v).length = u := by
  induction u generalizing v with
  | zero => rfl
  | succ u ih => simp [leBytes, ih]

@[simp] theorem length_unitsToBytes (unit : Nat) (l : List Nat) :
    (unitsToBytes unit l).length = l.length * unit := by
  induction l with
  | nil => simp [unitsToBytes]
  | cons x xs ih =>
    show (leBytes unit x ++ unitsToBytes unit xs).length = (xs.length + 1) * unit
    rw [List.length_append, length_leBytes, ih, Nat.succ_mul]
    omega

theorem overlay_eq_of_le (src : List Nat) :
    ∀ (buf : List Nat) (off : Nat), off + src.length ≤ buf.length →
      overlay buf off src = buf.take off ++ src ++ buf.drop (off + src.length) := by
  induction src with
  | nil =>
    intro buf off _
    simp [overlay]
  | cons x xs ih =>
    intro buf off h
    simp only [List.length_cons] at h
    have hoff : off < buf.length := by omega
    have hset := List.set_eq_take_cons_drop x hoff
    rw [overlay, ih (buf.set off x) (off + 1) (by simp; omega), hset]
    have htake : ((buf.take off ++ x :: buf.drop (off + 1)).take (off + 1))
        = buf.take off ++ [x] := by
      rw [List.take_append_eq_append_take]
      have h1 : (buf.take off).length = off := by simp; omega
      rw [h1]
      simp
    have hdrop : ((buf.take off ++ x :: buf.drop (off + 1)).drop (off + 1 + xs.length))
        = buf.drop (off + (xs.length + 1)) := by
      have h1 : (buf.take off).length = off := by simp; omega
      have h2 : off + 1 + xs.length - off = xs.length + 1 := by omega
      rw [List.drop_append_eq_append_drop, h1, h2,
        List.drop_eq_nil_of_le (by rw [h1]; omega)]
      simp only [List.nil_append, List.drop_succ_cons, List.drop_drop]
      congr 1
      omega
    rw [htake, hdrop]
    simp

theorem readBytes_writeBytes (m : Nat → Nat) (addr : Nat) (data : List Nat) :
    readBytes (writeBytes m addr data) addr data.length = data := by
  unfold readBytes writeBytes
  have key : ∀ (l : List Nat) (g : Nat → Nat),
      (List.range l.length).map (fun i => l.getD i (g i)) = l := by
    intro l
    induction l with
    | nil => intro g; rfl
    | cons x xs ih =>
      intro g
      rw [List.length_cons, List.range_succ_eq_map, List.map_cons]
      simp only [List.getD_cons_zero, List.map_map]
      congr 1
      have := ih (fun i => g (i + 1))
      simpa [Function.comp_def, List.getD_cons_succ, Nat.succ_eq_add_one] using this
  have : ∀ i ∈ List.range data.length,
      (fun a => if addr ≤ a ∧ a < addr + data.length then data.getD (a - addr) (m a) else m a)
        (addr + i) = data.getD i (m (addr + i)) := by
    intro i hi
    rw [List.mem_range] at hi
    simp only []
    rw [if_pos ⟨Nat.le_add_right _ _, by omega⟩]
    congr 1
    omega
  rw [List.map_congr_left this]
  exact key data (fun i => m (addr + i))

/-! ## Memory patcher (`src/native/src/injector.cc`)

`ReplaceTextInMemory` (wide) and `ReplaceTextInMemoryASCII` (narrow)
are textually identical up to the character type; both are instances of
`replaceTextCore` with the code-unit width `unit` (2 for UTF-16, 1 for
ASCII).  Operating-system outcomes that the code branches on are passed
as oracle booleans: `protOk` (`VirtualProtectEx` to RWX succeeded),
`writeOk` (`WriteProcessMemory` succeeded), `restoreOk` (the final
`VirtualProtectEx` restore succeeded; its result is ignored by the
code). -/

/-- `PAGE_EXECUTE_READWRITE`. -/
def PAGE_EXECUTE_READWRITE : Nat := 0x40

/-- Target process state: memory bytes and per-byte page protection. -/
structure ProcMem where
  mem : Nat → Nat
  prot : Nat → Nat

/-- Set the protection of the byte range `[addr, addr + size)` to `v`
(models `VirtualProtectEx` over that range). -/
def setProtRange (p : Nat → Nat) (addr size v : Nat) : Nat → Nat :=
  fun a => if addr ≤ a ∧ a < addr + size then v else p a

/-- The scratch buffer prepared before the write: `original.length + 1`
characters zero-initialized, then `wcscpy_s`/`strcpy_s` of the
replacement (copying the source up to and including its terminator),
then the pad loop `for (i = replacement.length; i < origLen; i++)
buffer[i] = space`.  The space character is 32 in both encodings. -/
def prepareBuffer (origLen : Nat) (replacement : List Nat) : List Nat :=
  let buf0 := List.replicate (origLen + 1) 0
  let buf1 := overlay buf0 0 (replacement.takeWhile (fun c => c ≠ 0) ++ [0])
  (List.range' replacement.length (origLen - replacement.length)).foldl
    (fun b i => b.set i 32) buf1

/-- `ReplaceTextInMemory` / `ReplaceTextInMemoryASCII`, parametric in
the code-unit width.  Returns the `bool` result and the new process
state.  Mirrors the source: length check, protection elevation to RWX
saving the old protection (Windows reports the protection of the first
page, so the saved value is the protection at `addr`), buffer
preparation, write of `original.length * unit` bytes, protection
restore regardless of the write outcome. -/
def replaceTextCore (unit : Nat) (protOk writeOk restoreOk : Bool) (st : ProcMem)
    (addr : Nat) (original replacement : List Nat) : Bool × ProcMem :=
  if original.length < replacement.length then (false, st)
  else if protOk = false then (false, st)
  else
    let size := original.length * unit
    let oldProtect := st.prot addr
    let elevated := setProtRange st.prot addr size PAGE_EXECUTE_READWRITE
    let buffer := prepareBuffer original.length replacement
    let mem1 := if writeOk then
        writeBytes st.mem addr (unitsToBytes unit (buffer.take original.length))
      else st.mem
    let prot1 := if restoreOk then setProtRange elevated addr size oldProtect else elevated
    (writeOk, { mem := mem1, prot := prot1 })

/-- Wide (UTF-16) patch path: 2 bytes per code unit. -/
def ReplaceTextInMemory (protOk writeOk restoreOk : Bool) (st : ProcMem)
    (addr : Nat) (original replacement : WStr) : Bool × ProcMem :=
  replaceTextCore 2 protOk writeOk restoreOk st addr original replacement

/-- Narrow (ASCII) patch path: 1 byte per code unit. -/
def ReplaceTextInMemoryASCII (protOk writeOk restoreOk : Bool) (st : ProcMem)
    (addr : Nat) (original replacement : List Nat) : Bool × ProcMem :=
  replaceTextCore 1 protOk writeOk restoreOk st addr original replacement

theorem takeWhile_of_not_mem_zero {l : List Nat} (h : 0 ∉ l) :
    l.takeWhile (fun c => c ≠ 0) = l := by
  induction l with
  | nil => rfl
  | cons x xs ih =>
    simp only [List.mem_cons, not_or] at h
    rw [List.takeWhile_cons, if_pos (by simpa using Ne.symm h.1), ih h.2]

theorem setRange_foldl_eq_overlay (n : Nat) :
    ∀ (lo : Nat) (buf : List Nat),
      (List.range' lo n).foldl (fun b i => b.set i 32) buf
        = overlay buf lo (List.replicate n 32) := by
  induction n with
  | zero => intro lo buf; rfl
  | succ n ih =>
    intro lo buf
    rw [List.range'_succ, List.foldl_cons, List.replicate_succ, overlay, ih]

/-- The first `origLen` characters of the prepared scratch buffer are
the replacement followed by spaces — exactly what gets written to the
target.  `0 ∉ replacement` reflects that the replacement comes from a
`std::wstring`/`std::string` built by NUL-terminated conversion, so it
has no interior NUL (otherwise `wcscpy_s` would stop early). -/
theorem prepareBuffer_take (origLen : Nat) (replacement : List Nat)
    (h0 : 0 ∉ replacement) (hle : replacement.length ≤ origLen) :
    (prepareBuffer origLen replacement).take origLen
      = replacement ++ List.replicate (origLen - replacement.length) 32 := by
  unfold prepareBuffer
  rw [setRange_foldl_eq_overlay, takeWhile_of_not_mem_zero h0]
  set d := origLen - replacement.length with hd
  have hbuf1 : overlay (List.replicate (origLen + 1) 0) 0 (replacement ++ [0])
      = replacement ++ List.replicate (d + 1) 0 := by
    rw [overlay_eq_of_le _ _ _ (by simp; omega)]
    simp only [List.take_zero, List.nil_append, Nat.zero_add, List.length_append,
      List.length_singleton, List.drop_replicate]
    rw [List.append_assoc]
    congr 1
    have heq : origLen + 1 - (replacement.length + 1) = d := by omega
    rw [heq, List.replicate_succ, List.singleton_append]
  rw [hbuf1, overlay_eq_of_le _ _ _ (by simp)]
  have htake : (replacement ++ List.replicate (d + 1) 0).take replacement.length
      = replacement := List.take_left _ _
  have hdrop : (replacement ++ List.replicate (d + 1) 0).drop (replacement.length + d)
      = [0] := by
    rw [List.drop_append_eq_append_drop,
      List.drop_eq_nil_of_le (by omega), List.nil_append, List.drop_replicate]
    have h4 : replacement.length + d - replacement.length = d := by omega
    have h5 : d + 1 - d = 1 := by omega
    rw [h4, h5, List.replicate_one]
  rw [htake, List.length_replicate, hdrop]
  have hlen2 : (replacement ++ List.replicate d 32).length = origLen := by
    simp
    omega
  rw [← hlen2, List.take_left]

/-- Common core of claim C1: on a successful patch, the bytes of the
target range `[addr, addr + original.length * unit)` are the
replacement code units followed by spaces. -/
theorem replaceTextCore_success (unit : Nat) (restoreOk : Bool) (st : ProcMem)
    (addr : Nat) (original replacement : List Nat)
    (h0 : 0 ∉ replacement) (hle : replacement.length ≤ original.length) :
    (replaceTextCore unit true true restoreOk st addr original replacement).1 = true ∧
      readBytes (replaceTextCore unit true true restoreOk st addr original replacement).2.mem
          addr (original.length * unit)
        = unitsToBytes unit
            (replacement ++ List.replicate (original.length - replacement.length) 32) := by
  have hnot : ¬ original.length < replacement.length := by omega
  unfold replaceTextCore
  rw [if_neg hnot]
  simp only [Bool.true_eq_false, if_neg (by simp : ¬ (True : Prop) = False), if_true]
  refine ⟨rfl, ?_⟩
  rw [prepareBuffer_take original.length replacement h0 hle]
  have hlen : original.length * unit
      = (unitsToBytes unit
          (replacement ++ List.replicate (original.length - replacement.length) 32)).length := by
    rw [length_unitsToBytes, List.length_append, List.length_replicate]
    congr 1
    omega
  rw [hlen]
  exact readBytes_writeBytes _ _ _

/-- The per-pair loop of `InjectTranslations` at the addresses found
for one pair: patch each address; an address is appended to the
`injected` report only when the patch returned success. -/
def processPairAtAddrs (unit : Nat) (protOk writeOk restoreOk : Nat → Bool) (st : ProcMem)
    (addrs : List Nat) (original replacement : List Nat) : ProcMem × List Nat :=
  addrs.foldl
    (fun acc addr =>
      let r := replaceTextCore unit (protOk addr) (writeOk addr) (restoreOk addr)
        acc.1 addr original replacement
      (r.2, if r.1 then acc.2 ++ [addr] else acc.2))
    (st, [])

theorem replaceTextCore_too_long (unit : Nat) (protOk writeOk restoreOk : Bool)
    (st : ProcMem) (addr : Nat) (original replacement : List Nat)
    (h : original.length < replacement.length) :
    replaceTextCore unit protOk writeOk restoreOk st addr original replacement
      = (false, st) := by
  unfold replaceTextCore
  rw [if_pos h]

theorem processPairAtAddrs_too_long (unit : Nat) (protOk writeOk restoreOk : Nat → Bool)
    (st : ProcMem) (addrs : List Nat) (original replacement : List Nat)
    (h : original.length < replacement.length) :
    processPairAtAddrs unit protOk writeOk restoreOk st addrs original replacement
      = (st, []) := by
  unfold processPairAtAddrs
  have key : ∀ (l : List Nat) (s : ProcMem) (acc : List Nat),
      l.foldl
        (fun acc addr =>
          let r := replaceTextCore unit (protOk addr) (writeOk addr) (restoreOk addr)
            acc.1 addr original replacement
          (r.2, if r.1 then acc.2 ++ [addr] else acc.2))
        (s, acc) = (s, acc) := by
    intro l
    induction l with
    | nil => intro s acc; rfl
    | cons a l ih =>
      intro s acc
      rw [List.foldl_cons]
      simp only [replaceTextCore_too_long unit _ _ _ s a original replacement h]
      exact ih s acc
  exact key addrs st []

/-! ## Association-list model of `std::unordered_map`

The maps in the sources (`m_cache`, `g_TranslationCache`,
`g_pendingResponses`) are `std::unordered_map`s; we model them as
association lists with unique keys.  `alInsert` is `map[k] = v`
(replace the value in place if the key is present, otherwise add the
entry), `alErase` is `map.erase(k)`, `alLookup` is `map.find(k)`. -/

def alLookup {α β : Type} [DecidableEq α] : List (α × β) → α → Option β
  | [], _ => none
  | (k, v) :: rest, key => if k = key then some v else alLookup rest key

def alInsert {α β : Type} [DecidableEq α] : List (α × β) → α → β → List (α × β)
  | [], key, val => [(key, val)]
  | (k, v) :: rest, key, val =>
    if k = key then (k, val) :: rest else (k, v) :: alInsert rest key val

def alErase {α β : Type} [DecidableEq α] : List (α × β) → α → List (α × β)
  | [], _ => []
  | (k, v) :: rest, key => if k = key then rest else (k, v) :: alErase rest key

theorem length_alInsert_le {α β : Type} [DecidableEq α]
    (l : List (α × β)) (key : α) (val : β) :
    (alInsert l key val).length ≤ l.length + 1 := by
  induction l with
  | nil => simp [alInsert]
  | cons p rest ih =>
    obtain ⟨k, v⟩ := p
    by_cases h : k = key
    · simp [alInsert, if_pos h]
    · simp only [alInsert, if_neg h, List.length_cons]
      omega

theorem alInsert_of_lookup_none {α β : Type} [DecidableEq α]
    {l : List (α × β)} {key : α} (val : β) (h : alLookup l key = none) :
    alInsert l key val = l ++ [(key, val)] := by
  induction l with
  | nil => rfl
  | cons p rest ih =>
    obtain ⟨k, v⟩ := p
    by_cases hk : k = key
    · rw [alLookup, if_pos hk] at h
      exact absurd h (by simp)
    · rw [alLookup, if_neg hk] at h
      rw [alInsert, if_neg hk, ih h, List.cons_append]

theorem mem_alInsert {α β : Type} [DecidableEq α]
    {l : List (α × β)} {key : α} {val : β} {p : α × β}
    (h : p ∈ alInsert l key val) : p ∈ l ∨ p = (key, val) := by
  induction l with
  | nil =>
    simp [alInsert] at h
    exact Or.inr h
  | cons q rest ih =>
    obtain ⟨k, v⟩ := q
    by_cases hk : k = key
    · rw [alInsert, if_pos hk] at h
      rcases List.mem_cons.mp h with h1 | h1
      · exact Or.inr (by rw [h1, hk])
      · exact Or.inl (List.mem_cons_of_mem _ h1)
    · rw [alInsert, if_neg hk] at h
      rcases List.mem_cons.mp h with h1 | h1
      · exact Or.inl (by rw [h1]; exact List.mem_cons_self _ _)
      · rcases ih h1 with h2 | h2
        · exact Or.inl (List.mem_cons_of_mem _ h2)
        · exact Or.inr h2

theorem alLookup_eq_some_mem {α β : Type} [DecidableEq α]
    {l : List (α × β)} {key : α} {val : β}
    (h : alLookup l key = some val) : (key, val) ∈ l := by
  induction l with
  | nil => simp [alLookup] at h
  | cons q rest ih =>
    obtain ⟨k, v⟩ := q
    by_cases hk : k = key
    · rw [alLookup, if_pos hk] at h
      have : v = val := by simpa using h
      subst this
      subst hk
      exact List.mem_cons_self _ _
    · rw [alLookup, if_neg hk] at h
      exact List.mem_cons_of_mem _ (ih h)

theorem alLookup_alInsert_self {α β : Type} [DecidableEq α]
    (l : List (α × β)) (key : α) (val : β) :
    alLookup (alInsert l key val) key = some val := by
  induction l with
  | nil => simp [alInsert, alLookup]
  | cons q rest ih =>
    obtain ⟨k, v⟩ := q
    by_cases hk : k = key
    · rw [alInsert, if_pos hk, alLookup, if_pos hk]
    · rw [alInsert, if_neg hk, alLookup, if_neg hk]
      exact ih

/-! ## Bounded translation cache
(`src/unreal-translator/hook-dll/src/cache.cpp`) -/

/-- In-memory state of `TranslationCache`: the entry map, the capacity
`m_maxSize`, and the hit/miss counters. -/
structure TranslationCache where
  entries : List (WStr × WStr)
  maxSize : Nat
  hits : Nat
  misses : Nat

/-- `TranslationCache::Get`: lookup; bumps `m_hits` or `m_misses`. -/
def TranslationCache.Get (c : TranslationCache) (original : WStr) :
    Option WStr × TranslationCache :=
  match alLookup c.entries original with
  | some v => (some v, { c with hits := c.hits + 1 })
  | none => (none, { c with misses := c.misses + 1 })

/-- `TranslationCache::EvictOldest`: remove the first map entry when
nonempty (the source notes this is position-based, not true LRU). -/
def TranslationCache.EvictOldest (entries : List (WStr × WStr)) : List (WStr × WStr) :=
  match entries with
  | [] => []
  | _ :: rest => rest

/-- `TranslationCache::Put`: evict one entry if `size >= m_maxSize`,
then `m_cache[original] = translated`. -/
def TranslationCache.Put (c : TranslationCache) (original translated : WStr) :
    TranslationCache :=
  let e := if c.maxSize ≤ c.entries.length then TranslationCache.EvictOldest c.entries
    else c.entries
  { c with entries := alInsert e original translated }

/-- `TranslationCache::Remove`. -/
def TranslationCache.Remove (c : TranslationCache) (original : WStr) : TranslationCache :=
  { c with entries := alErase c.entries original }

/-- `TranslationCache::Clear`. -/
def TranslationCache.Clear (c : TranslationCache) : TranslationCache :=
  { c with entries := [] }

/-- `TranslationCache::Size`. -/
def TranslationCache.Size (c : TranslationCache) : Nat :=
  c.entries.length

/-- One client-visible cache operation (claim C9 quantifies over
sequences of these). -/
inductive CacheOp where
  | put : WStr → WStr → CacheOp
  | get : WStr → CacheOp
  | remove : WStr → CacheOp
  | clear : CacheOp

def applyCacheOp (c : TranslationCache) : CacheOp → TranslationCache
  | .put k v => c.Put k v
  | .get k => (c.Get k).2
  | .remove k => c.Remove k
  | .clear => c.Clear

/-- Run a sequence of operations against a cache constructed as
`TranslationCache(maxSize)` (empty map, zero counters). -/
def runCacheOps (maxSize : Nat) (ops : List CacheOp) : TranslationCache :=
  ops.foldl applyCacheOp ⟨[], maxSize, 0, 0⟩

/-! ## Unity in-process cache
(`src/unity-translator-dll/src/main.cpp`)

`g_TranslationCache` is written from exactly two places, the bodies of
`Hook_mono_string_new` and `Hook_mono_string_new_utf16`, both guarded
by `!translated.empty() && translated != wtext`; it is emptied by
`ClearCache()` / `Cleanup()`. -/

/-- The store performed by both string-creation detours after a
successful IPC translation: `if (!translated.empty() && translated !=
wtext) g_TranslationCache[wtext] = translated`. -/
def unityStoreTranslation (cache : List (WStr × WStr)) (wtext translated : WStr) :
    List (WStr × WStr) :=
  if translated ≠ [] ∧ translated ≠ wtext then alInsert cache wtext translated else cache

/-- The operations that can touch `g_TranslationCache`. -/
inductive UnityCacheOp where
  | store : WStr → WStr → UnityCacheOp
  | clearCache : UnityCacheOp

def applyUnityCacheOp (cache : List (WStr × WStr)) : UnityCacheOp → List (WStr × WStr)
  | .store w t => unityStoreTranslation cache w t
  | .clearCache => []

def runUnityCacheOps (ops : List UnityCacheOp) : List (WStr × WStr) :=
  ops.foldl applyUnityCacheOp []

/-! ## Translation pipeline
(`src/unreal-translator/hook-dll/src/translator.cpp`) -/

/-- `TranslatorStats` (`g_stats`). -/
structure TranslatorStats where
  totalRequests : Nat
  cacheHits : Nat
  cacheMisses : Nat
  translationErrors : Nat
  averageLatencyMs : Nat

/-- Oracle for the IPC interactions a single `Translate` call makes:
`IPC::IsConnected()`, the id returned by `SendTranslateRequest` (0 on
send failure), the response delivered by `ReceiveTranslateResponse`
within the 2000 ms deadline (`none` = timeout), and the observed
latency. -/
structure IPCOutcome where
  connected : Bool
  requestId : Nat
  response : Option WStr
  latencyMs : Nat

/-- `Translate(originalText)`: returns the result string together with
the updated global cache and stats. -/
def Translate (initialized enabled : Bool) (cache : TranslationCache)
    (stats : TranslatorStats) (ipc : IPCOutcome) (originalText : WStr) :
    WStr × TranslationCache × TranslatorStats :=
  if initialized = false ∨ enabled = false then (originalText, cache, stats)
  else
    let stats1 := { stats with totalRequests := stats.totalRequests + 1 }
    let g := TranslationCache.Get cache originalText
    match g.1 with
    | some translated => (translated, g.2, { stats1 with cacheHits := stats1.cacheHits + 1 })
    | none =>
      let stats2 := { stats1 with cacheMisses := stats1.cacheMisses + 1 }
      if ipc.connected then
        if 0 < ipc.requestId then
          match ipc.response with
          | some translated =>
            let stats3 := { stats2 with
              averageLatencyMs := (stats2.averageLatencyMs + ipc.latencyMs) / 2 }
            (translated, TranslationCache.Put g.2 originalText translated, stats3)
          | none =>
            (originalText, g.2,
              { stats2 with translationErrors := stats2.translationErrors + 1 })
        else
          (originalText, g.2,
            { stats2 with translationErrors := stats2.translationErrors + 1 })
      else (originalText, g.2, stats2)

/-! ## IPC response correlation
(`src/unreal-translator/hook-dll/src/ipc.cpp`)

`g_pendingResponses` maps request ids to response strings deposited by
the receive thread.  `ReceiveTranslateResponse` waits on it under a
deadline; we abstract the wait by giving the function the map as it
stands when the deadline expires: if the response for `requestId` has
arrived by then, it is taken and the entry erased; otherwise the
function returns failure — and, as in the source, does not touch the
map. -/

def ReceiveTranslateResponse (pending : List (Nat × WStr)) (requestId : Nat) :
    Bool × WStr × List (Nat × WStr) :=
  match alLookup pending requestId with
  | some t => (true, t, alErase pending requestId)
  | none => (false, [], pending)

/-- The `TRANSLATE_RESPONSE` arm of `ReceiveThreadFunc`:
`g_pendingResponses[msg->requestId] = translated`. -/
def HandleTranslateResponse (pending : List (Nat × WStr)) (requestId : Nat)
    (translated : WStr) : List (Nat × WStr) :=
  alInsert pending requestId translated

/-! ## Detour translatability filters
(`src/unity-translator-dll/src/main.cpp`,
`src/unreal-translator/hook-dll/src/hooks.cpp`)

Each predicate is `true` when the detour passes the intercepted string
to the translation pipeline, `false` when it calls the original through
unchanged.  Character codes: `/` = 47, `\` = 92, both `{` and `}` have
codes 123 and 125 (only 123 is checked), `<` = 60, `:` = 58. -/

/-- Filter in `Hook_mono_string_new` (UTF-8 path): `text` is the byte
content of the NUL-terminated argument (hence NUL-free), `len` its
`strlen`. -/
def monoStringNewFilterPasses (text : List Nat) : Bool :=
  !(decide (text.length < 3)) && !(decide (500 < text.length)) &&
  !(text.contains 47) && !(text.contains 92) && !(text.contains 123) && !(text.contains 60)

/-- Filter in `Hook_mono_string_new_utf16`: `text` is the UTF-16 buffer
content of the declared length `len`. -/
def monoStringNewUtf16FilterPasses (text : WStr) : Bool :=
  !(decide (text.length < 3)) && !(decide (500 < text.length)) &&
  !(text.contains 47) && !(text.contains 92) && !(text.contains 123) && !(text.contains 60)

/-- `std::wstring::find(needle) != npos`. -/
def hasSubstr (p : List Nat) : List Nat → Bool
  | [] => p.isEmpty
  | x :: rest => p.isPrefixOf (x :: rest) || hasSubstr p rest

/-- Filter in `Hooked_FText_ToString`: enter only when `Len() > 0`,
then translate when `length > 2` and the string contains neither `::`
nor `//` as a substring. -/
def unrealToStringFilterPasses (text : WStr) : Bool :=
  decide (0 < text.length) && decide (2 < text.length) &&
  !(hasSubstr [58, 58] text) && !(hasSubstr [47, 47] text)

/-- Modelled from the spec: the translatability filter of §4.4 (reject
empty, length < 3 or > 500, or any of the characters 47 `/`, 92 `\`,
123, 60 `<`), for comparison with the code-level filters of the detours. -/
def specTranslatableFilter (text : List Nat) : Bool :=
  !(text.isEmpty) && !(decide (text.length < 3)) && !(decide (500 < text.length)) &&
  !(text.contains 47) && !(text.contains 92) && !(text.contains 123) && !(text.contains 60)

/-! ## Byte-pattern scanner (`src/native/src/memory_utils.cc`)

`ComparePattern` walks the mask; on `x` it dereferences both pointers;
an access past the end of either buffer is an out-of-bounds read,
signalled by `none`.  `ScanMemoryRegion` is the per-region loop of
`ScanMemory`: `for (size_t i = 0; i <= bytesRead - pattern.size(); i++)`
— the loop bound is `size_t` arithmetic, so it wraps modulo `2 ^ 64`
when the pattern is longer than the region. -/

def ComparePattern (data pattern : List Nat) : List Char → Nat → Nat → Option Bool
  | [], _, _ => some true
  | m :: ms, di, pj =>
    if m = 'x' then
      match data[di]?, pattern[pj]? with
      | some dv, some pv =>
        if dv ≠ pv then some false else ComparePattern data pattern ms (di + 1) (pj + 1)
      | _, _ => none
    else ComparePattern data pattern ms (di + 1) (pj + 1)

def ScanMemoryRegion (pattern : List Nat) (mask : List Char) (data : List Nat) :
    Option (List Nat) :=
  let bytesRead := data.length
  let bound := (bytesRead + (2 ^ 64 - pattern.length % 2 ^ 64)) % 2 ^ 64
  (List.range (bound + 1)).foldl
    (fun acc i =>
      match acc with
      | none => none
      | some found =>
        match ComparePattern data pattern mask i 0 with
        | none => none
        | some true => some (found ++ [i])
        | some false => some found)
    (some [])

/-! ## Cache file persistence
(`TranslationCache::SaveToFile` / `LoadFromFile`,
`src/unreal-translator/hook-dll/src/cache.cpp`)

The file is a byte list.  Header: `magic : u32`, `version : u32`,
`count : u32`, little-endian; then `count` entries, each
`{orig_len : u32, orig_utf16[orig_len], trans_len : u32,
trans_utf16[trans_len]}`.  The `u32` length fields are written with a
`(uint32_t)` cast, i.e. truncated modulo `2 ^ 32`; a `wchar_t` is two
bytes. -/

/-- `0x47535443` — "GSTC". -/
def CACHE_MAGIC : Nat := 0x47535443

def le32 (v : Nat) : List Nat := leBytes 4 v

def wstrBytes (s : WStr) : List Nat := unitsToBytes 2 s

def saveEntry (e : WStr × WStr) : List Nat :=
  le32 e.1.length ++ wstrBytes e.1 ++ le32 e.2.length ++ wstrBytes e.2

def entriesBytes (entries : List (WStr × WStr)) : List Nat :=
  entries.foldr (fun e acc => saveEntry e ++ acc) []

/-- `TranslationCache::SaveToFile`, as the byte content written on a
successful save of the given entry list (in its iteration order). -/
def SaveToFile (entries : List (WStr × WStr)) : List Nat :=
  le32 CACHE_MAGIC ++ le32 1 ++ le32 entries.length ++ entriesBytes entries

/-- `ifstream::read` of 4 bytes into a `uint32_t` (little-endian). -/
def read32 : List Nat → Option (Nat × List Nat)
  | b0 :: b1 :: b2 :: b3 :: rest => some (b0 + 256 * (b1 + 256 * (b2 + 256 * b3)), rest)
  | _ => none

/-- Reinterpret a byte list as 16-bit little-endian code units. -/
def readUnits16 : List Nat → WStr
  | b0 :: b1 :: rest => (b0 + 256 * b1) :: readUnits16 rest
  | _ => []

/-- `ifstream::read` of exactly `n` bytes. -/
def readChunk (n : Nat) (b : List Nat) : Option (List Nat × List Nat) :=
  if n ≤ b.length then some (b.take n, b.drop n) else none

/-- One iteration of the load loop: the four reads of an entry.  `none`
when any read fails (stream no longer `good()`, so the entry is not
inserted and the loop stops). -/
def readEntry (b : List Nat) : Option ((WStr × WStr) × List Nat) :=
  match read32 b with
  | none => none
  | some (origLen, b1) =>
    match readChunk (origLen * 2) b1 with
    | none => none
    | some (origBytes, b2) =>
      match read32 b2 with
      | none => none
      | some (transLen, b3) =>
        match readChunk (transLen * 2) b3 with
        | none => none
        | some (transBytes, b4) =>
          some ((readUnits16 origBytes, readUnits16 transBytes), b4)

/-- The entry loop `for (i = 0; i < count && file.good(); i++)`,
inserting with `m_cache[original] = translated`.  The `Bool` is the
flag is the `good()` state of the stream. -/
def loadEntriesLoop : Nat → List Nat × Bool → List (WStr × WStr) → List (WStr × WStr)
  | 0, _, acc => acc
  | n + 1, s, acc =>
    if s.2 then
      match readEntry s.1 with
      | some (e, rest) => loadEntriesLoop n (rest, true) (alInsert acc e.1 e.2)
      | none => acc
    else acc

/-- A header-field read: on a short stream the read fails and the
target variable keeps an indeterminate value, modelled by `junk`; once
failed, the stream stays failed. -/
def read32F (junk : Nat) : List Nat × Bool → Nat × (List Nat × Bool)
  | (b, true) =>
    match read32 b with
    | some (v, rest) => (v, (rest, true))
    | none => (junk, (b, false))
  | (b, false) => (junk, (b, false))

/-- `TranslationCache::LoadFromFile` on an opened file with content
`fileBytes`, given the current in-memory entries: reads magic, version
and count, rejects on magic/version mismatch without touching the
cache, otherwise clears the cache and runs the entry loop. -/
def LoadFromFile (junk : Nat) (fileBytes : List Nat) (current : List (WStr × WStr)) :
    Bool × List (WStr × WStr) :=
  let m := read32F junk (fileBytes, true)
  let v := read32F junk m.2
  let c := read32F junk v.2
  if m.1 ≠ CACHE_MAGIC ∨ v.1 ≠ 1 then (false, current)
  else (true, loadEntriesLoop c.1 c.2 [])

theorem read32_le32 (v : Nat) (rest : List Nat) (h : v < 2 ^ 32) :
    read32 (le32 v ++ rest) = some (v, rest) := by
  show read32 (v % 256 :: v / 256 % 256 :: v / 256 / 256 % 256 :: v / 256 / 256 / 256 % 256
    :: rest) = some (v, rest)
  rw [read32]
  congr 2
  omega

theorem readUnits16_wstrBytes (s : WStr) (hu : ∀ u ∈ s, u < 2 ^ 16) :
    readUnits16 (wstrBytes s) = s := by
  induction s with
  | nil => rfl
  | cons x xs ih =>
    have hx : x < 2 ^ 16 := hu x (List.mem_cons_self _ _)
    show readUnits16 (x % 256 :: x / 256 % 256 :: unitsToBytes 2 xs) = x :: xs
    rw [readUnits16]
    have hxs : readUnits16 (unitsToBytes 2 xs) = xs :=
      ih (fun u hu2 => hu u (List.mem_cons_of_mem _ hu2))
    rw [hxs]
    congr 1
    omega

theorem readChunk_exact (l rest : List Nat) (n : Nat) (h : n = l.length) :
    readChunk n (l ++ rest) = some (l, rest) := by
  subst h
  rw [readChunk, if_pos (by simp), List.take_left, List.drop_left]

theorem readEntry_saveEntry (e : WStr × WStr) (rest : List Nat)
    (h1 : e.1.length < 2 ^ 32) (h2 : e.2.length < 2 ^ 32)
    (hu1 : ∀ u ∈ e.1, u < 2 ^ 16) (hu2 : ∀ u ∈ e.2, u < 2 ^ 16) :
    readEntry (saveEntry e ++ rest) = some (e, rest) := by
  have hc1 : readChunk (e.1.length * 2)
      (wstrBytes e.1 ++ (le32 e.2.length ++ (wstrBytes e.2 ++ rest)))
      = some (wstrBytes e.1, le32 e.2.length ++ (wstrBytes e.2 ++ rest)) :=
    readChunk_exact _ _ _ (by simp [wstrBytes])
  have hc2 : readChunk (e.2.length * 2) (wstrBytes e.2 ++ rest)
      = some (wstrBytes e.2, rest) :=
    readChunk_exact _ _ _ (by simp [wstrBytes])
  simp only [readEntry, saveEntry, List.append_assoc, read32_le32 _ _ h1,
    read32_le32 _ _ h2, hc1, hc2, readUnits16_wstrBytes _ hu1, readUnits16_wstrBytes _ hu2]

theorem alLookup_eq_none_of_not_mem_keys {α β : Type} [DecidableEq α]
    {l : List (α × β)} {key : α} (h : key ∉ l.map Prod.fst) :
    alLookup l key = none := by
  induction l with
  | nil => rfl
  | cons p rest ih =>
    obtain ⟨k, v⟩ := p
    simp only [List.map_cons, List.mem_cons, not_or] at h
    rw [alLookup, if_neg (fun hk => h.1 hk.symm)]
    exact ih h.2

theorem loadEntriesLoop_entriesBytes :
    ∀ (entries acc : List (WStr × WStr)),
      (∀ e ∈ entries, e.1.length < 2 ^ 32 ∧ e.2.length < 2 ^ 32 ∧
        (∀ u ∈ e.1, u < 2 ^ 16) ∧ (∀ u ∈ e.2, u < 2 ^ 16)) →
      (entries.map Prod.fst).Nodup →
      (∀ k, k ∈ entries.map Prod.fst → k ∉ acc.map Prod.fst) →
      loadEntriesLoop entries.length (entriesBytes entries, true) acc = acc ++ entries := by
  intro entries
  induction entries with
  | nil =>
    intro acc _ _ _
    simp [loadEntriesLoop]
  | cons e es ih =>
    intro acc hwf hnd hdisj
    have hbytes : entriesBytes (e :: es) = saveEntry e ++ entriesBytes es := rfl
    have hwfe := hwf e (List.mem_cons_self _ _)
    rw [List.length_cons, hbytes, loadEntriesLoop, if_pos rfl]
    simp only
    rw [readEntry_saveEntry e _ hwfe.1 hwfe.2.1 hwfe.2.2.1 hwfe.2.2.2]
    show loadEntriesLoop es.length (entriesBytes es, true) (alInsert acc e.1 e.2)
      = acc ++ e :: es
    have hfresh : alLookup acc e.1 = none :=
      alLookup_eq_none_of_not_mem_keys
        (hdisj e.1 (by simp only [List.map_cons]; exact List.mem_cons_self _ _))
    rw [alInsert_of_lookup_none _ hfresh]
    rw [List.map_cons, List.nodup_cons] at hnd
    have := ih (acc ++ [e]) (fun x hx => hwf x (List.mem_cons_of_mem _ hx)) hnd.2
      (by
        intro k hk
        simp only [List.map_append, List.mem_append, List.map_cons, List.map_nil,
          List.mem_singleton, not_or]
        refine ⟨hdisj k (by simp only [List.map_cons]; exact List.mem_cons_of_mem _ hk), ?_⟩
        intro hke
        rw [hke] at hk
        exact hnd.1 hk)
    rw [this, List.append_assoc]
    rfl

/-! ## Remaining helper lemmas -/

theorem length_alErase_le {α β : Type} [DecidableEq α] (l : List (α × β)) (key : α) :
    (alErase l key).length ≤ l.length := by
  induction l with
  | nil => simp [alErase]
  | cons p rest ih =>
    obtain ⟨k, v⟩ := p
    by_cases h : k = key
    · simp only [alErase, if_pos h, List.length_cons]
      omega
    · simp only [alErase, if_neg h, List.length_cons]
      omega

theorem length_evict_insert_le (l : List (WStr × WStr)) (k v : WStr) (h : l ≠ []) :
    (alInsert (TranslationCache.EvictOldest l) k v).length ≤ l.length := by
  cases l with
  | nil => exact absurd rfl h
  | cons p rest =>
    show (alInsert rest k v).length ≤ rest.length + 1
    exact length_alInsert_le _ _ _

theorem Put_size_le (c : TranslationCache) (k v : WStr)
    (hmax : 1 ≤ c.maxSize) (hle : c.entries.length ≤ c.maxSize) :
    (c.Put k v).entries.length ≤ c.maxSize := by
  unfold TranslationCache.Put
  by_cases hfull : c.maxSize ≤ c.entries.length
  · rw [if_pos hfull]
    simp only
    have hne : c.entries ≠ [] := by
      intro h0
      rw [h0] at hfull
      simp at hfull
      omega
    calc (alInsert (TranslationCache.EvictOldest c.entries) k v).length
        ≤ c.entries.length := length_evict_insert_le _ _ _ hne
      _ ≤ c.maxSize := hle
  · rw [if_neg hfull]
    simp only
    have := length_alInsert_le c.entries k v
    omega

theorem applyCacheOp_maxSize (c : TranslationCache) (op : CacheOp) :
    (applyCacheOp c op).maxSize = c.maxSize := by
  cases op with
  | put k v => rfl
  | get k =>
    show (c.Get k).2.maxSize = c.maxSize
    unfold TranslationCache.Get
    cases alLookup c.entries k <;> rfl
  | remove k => rfl
  | clear => rfl

theorem Get_entries (c : TranslationCache) (k : WStr) :
    (c.Get k).2.entries = c.entries := by
  unfold TranslationCache.Get
  cases alLookup c.entries k <;> rfl

theorem applyCacheOp_size_le (c : TranslationCache) (op : CacheOp)
    (hmax : 1 ≤ c.maxSize) (hle : c.entries.length ≤ c.maxSize) :
    (applyCacheOp c op).entries.length ≤ c.maxSize := by
  cases op with
  | put k v => exact Put_size_le c k v hmax hle
  | get k =>
    show (c.Get k).2.entries.length ≤ c.maxSize
    rw [Get_entries]
    exact hle
  | remove k =>
    show (alErase c.entries k).length ≤ c.maxSize
    have := length_alErase_le c.entries k
    omega
  | clear =>
    show ([] : List (WStr × WStr)).length ≤ c.maxSize
    simp

theorem foldl_cacheOps_invariant (M : Nat) (hM : 1 ≤ M) :
    ∀ (ops : List CacheOp) (c : TranslationCache), c.maxSize = M →
      c.entries.length ≤ M →
      (ops.foldl applyCacheOp c).entries.length ≤ M := by
  intro ops
  induction ops with
  | nil =>
    intro c _ h2
    exact h2
  | cons op rest ih =>
    intro c h1 h2
    rw [List.foldl_cons]
    exact ih _ (by rw [applyCacheOp_maxSize, h1])
      (by rw [← h1]
          exact applyCacheOp_size_le c op (by rw [h1]; exact hM) (by rw [h1]; exact h2))

theorem runUnityCacheOps_foldl_values :
    ∀ (ops : List UnityCacheOp) (cache : List (WStr × WStr)),
      (∀ p ∈ cache, p.2 ≠ [] ∧ p.2 ≠ p.1) →
      ∀ p ∈ ops.foldl applyUnityCacheOp cache, p.2 ≠ [] ∧ p.2 ≠ p.1 := by
  intro ops
  induction ops with
  | nil =>
    intro cache h
    exact h
  | cons op rest ih =>
    intro cache h
    rw [List.foldl_cons]
    apply ih
    cases op with
    | store w t =>
      intro p hp
      show p.2 ≠ [] ∧ p.2 ≠ p.1
      simp only [applyUnityCacheOp, unityStoreTranslation] at hp
      by_cases hg : t ≠ [] ∧ t ≠ w
      · rw [if_pos hg] at hp
        rcases mem_alInsert hp with h1 | h1
        · exact h p h1
        · rw [h1]
          exact ⟨hg.1, hg.2⟩
      · rw [if_neg hg] at hp
        exact h p hp
    | clearCache =>
      intro p hp
      simp only [applyUnityCacheOp] at hp
      exact absurd hp (List.not_mem_nil p)

/-! ## The claims -/

set_option maxRecDepth 8192

/-- Claim C1: for every patch call in which the replacement fits
(`len(replacement) <= len(original)` in code units) and the write
succeeds, the bytes written to `[address, address + len(original) *
unit)` equal the replacement code units followed by
`len(original) - len(replacement)` spaces of that encoding, on both the
wide (UTF-16) and narrow (ASCII) paths. -/
theorem patch_success_bytes_are_replacement_padded
    (restoreOkW restoreOkA : Bool) (stW stA : ProcMem) (addrW addrA : Nat)
    (originalW replacementW : WStr) (originalA replacementA : List Nat)
    (hzW : 0 ∉ replacementW) (hleW : replacementW.length ≤ originalW.length)
    (hzA : 0 ∉ replacementA) (hleA : replacementA.length ≤ originalA.length) :
    ((ReplaceTextInMemory true true restoreOkW stW addrW originalW replacementW).1 = true ∧
      readBytes (ReplaceTextInMemory true true restoreOkW stW addrW
            originalW replacementW).2.mem addrW (originalW.length * 2)
        = unitsToBytes 2
            (replacementW ++ List.replicate (originalW.length - replacementW.length) 32)) ∧
    ((ReplaceTextInMemoryASCII true true restoreOkA stA addrA originalA replacementA).1
        = true ∧
      readBytes (ReplaceTextInMemoryASCII true true restoreOkA stA addrA
            originalA replacementA).2.mem addrA (originalA.length * 1)
        = unitsToBytes 1
            (replacementA ++ List.replicate (originalA.length - replacementA.length) 32)) :=
  ⟨replaceTextCore_success 2 restoreOkW stW addrW originalW replacementW hzW hleW,
   replaceTextCore_success 1 restoreOkA stA addrA originalA replacementA hzA hleA⟩

theorem patch_success_bytes_witness :
    (0 : Nat) ∉ ([73, 110] : WStr) ∧
    ([73, 110] : WStr).length ≤ ([83, 116, 97, 114] : WStr).length ∧
    (0 : Nat) ∉ ([79, 75] : List Nat) ∧
    ([79, 75] : List Nat).length ≤ ([79, 75] : List Nat).length ∧
    (((ReplaceTextInMemory true true false ⟨fun _ => 0, fun _ => 0⟩ 4096
          [83, 116, 97, 114] [73, 110]).1 = true ∧
      readBytes (ReplaceTextInMemory true true false ⟨fun _ => 0, fun _ => 0⟩ 4096
            [83, 116, 97, 114] [73, 110]).2.mem 4096 (([83, 116, 97, 114] : WStr).length * 2)
        = unitsToBytes 2
            ([73, 110] ++ List.replicate (([83, 116, 97, 114] : WStr).length
              - ([73, 110] : WStr).length) 32)) ∧
     ((ReplaceTextInMemoryASCII true true false ⟨fun _ => 0, fun _ => 0⟩ 64
          [79, 75] [79, 75]).1 = true ∧
      readBytes (ReplaceTextInMemoryASCII true true false ⟨fun _ => 0, fun _ => 0⟩ 64
            [79, 75] [79, 75]).2.mem 64 (([79, 75] : List Nat).length * 1)
        = unitsToBytes 1
            ([79, 75] ++ List.replicate (([79, 75] : List Nat).length
              - ([79, 75] : List Nat).length) 32))) :=
  ⟨by decide, by decide, by decide, by decide,
   patch_success_bytes_are_replacement_padded false false
     ⟨fun _ => 0, fun _ => 0⟩ ⟨fun _ => 0, fun _ => 0⟩ 4096 64
     [83, 116, 97, 114] [73, 110] [79, 75] [79, 75]
     (by decide) (by decide) (by decide) (by decide)⟩

/-- Claim C2: when the replacement is strictly longer than the original
(in code units), the patch fails before any protection change or write
— the returned state is exactly the input state — and the per-pair loop
reports no injected address for the pair. -/
theorem patch_too_long_rejected
    (unit : Nat) (protOk writeOk restoreOk : Bool) (pf wf rf : Nat → Bool)
    (st : ProcMem) (addr : Nat) (addrs : List Nat) (original replacement : List Nat)
    (h : original.length < replacement.length) :
    ReplaceTextInMemory protOk writeOk restoreOk st addr original replacement
      = (false, st) ∧
    ReplaceTextInMemoryASCII protOk writeOk restoreOk st addr original replacement
      = (false, st) ∧
    processPairAtAddrs unit pf wf rf st addrs original replacement = (st, []) :=
  ⟨replaceTextCore_too_long 2 protOk writeOk restoreOk st addr original replacement h,
   replaceTextCore_too_long 1 protOk writeOk restoreOk st addr original replacement h,
   processPairAtAddrs_too_long unit pf wf rf st addrs original replacement h⟩

theorem patch_too_long_rejected_witness :
    ([72, 105] : List Nat).length < ([67, 105, 97, 111] : List Nat).length ∧
    (ReplaceTextInMemory true true true ⟨fun _ => 7, fun _ => 2⟩ 64 [72, 105] [67, 105, 97, 111]
        = (false, ⟨fun _ => 7, fun _ => 2⟩) ∧
     ReplaceTextInMemoryASCII true true true ⟨fun _ => 7, fun _ => 2⟩ 64
        [72, 105] [67, 105, 97, 111] = (false, ⟨fun _ => 7, fun _ => 2⟩) ∧
     processPairAtAddrs 2 (fun _ => true) (fun _ => true) (fun _ => true)
        ⟨fun _ => 7, fun _ => 2⟩ [64, 128] [72, 105] [67, 105, 97, 111]
        = (⟨fun _ => 7, fun _ => 2⟩, [])) :=
  ⟨by decide,
   patch_too_long_rejected 2 true true true (fun _ => true) (fun _ => true) (fun _ => true)
     ⟨fun _ => 7, fun _ => 2⟩ 64 [64, 128] [72, 105] [67, 105, 97, 111] (by decide)⟩

/-- Claim C3 (counterexample): the detours do not all apply the claimed
shared filter.  The string `a<b` (codes `[97, 60, 98]`) contains `<`,
so the claimed filter — and both Mono detours — reject it, yet the
Unreal `FText::ToString` detour passes it to the pipeline. -/
theorem detour_filters_not_shared_counterexample :
    unrealToStringFilterPasses [97, 60, 98] = true ∧
    specTranslatableFilter [97, 60, 98] = false ∧
    monoStringNewFilterPasses [97, 60, 98] = false ∧
    monoStringNewUtf16FilterPasses [97, 60, 98] = false := by
  decide

/-- Claim C3 (amended): the two Mono string-creation detours apply
exactly the claimed filter (empty, length < 3 or > 500, or containing
one of `/` `\` `{` `<` → call through).  The Unreal `FText::ToString`
detour applies a different filter — non-empty, length > 2, and no `::`
or `//` substring — which accepts strings the claimed filter rejects,
such as one containing `<` and one of length 501. -/
theorem detour_filters_amended :
    (∀ text : List Nat, monoStringNewFilterPasses text = specTranslatableFilter text) ∧
    (∀ text : WStr, monoStringNewUtf16FilterPasses text = specTranslatableFilter text) ∧
    (unrealToStringFilterPasses [97, 60, 98] = true ∧
      specTranslatableFilter [97, 60, 98] = false) ∧
    (unrealToStringFilterPasses (List.replicate 501 97) = true ∧
      specTranslatableFilter (List.replicate 501 97) = false) := by
  refine ⟨?_, ?_, by decide, by decide⟩
  · intro text
    cases text <;> rfl
  · intro text
    cases text <;> rfl

/-- Claim C4: on an enabled, initialized pipeline whose input misses
the cache, if the transport is not connected, the send fails
(`SendTranslateRequest` returned 0), or the wait times out
(`ReceiveTranslateResponse` failed), then `Translate` returns the
original string unchanged, and the error counter is incremented exactly
when a send was attempted (the transport was connected). -/
theorem translate_ipc_failure_returns_original
    (cache : TranslationCache) (stats : TranslatorStats) (ipc : IPCOutcome) (text : WStr)
    (hmiss : alLookup cache.entries text = none)
    (hfail : ipc.connected = false ∨ ipc.requestId = 0 ∨ ipc.response = none) :
    (Translate true true cache stats ipc text).1 = text ∧
    (Translate true true cache stats ipc text).2.2.translationErrors
      = stats.translationErrors + (if ipc.connected then 1 else 0) := by
  have hget : TranslationCache.Get cache text
      = (none, { cache with misses := cache.misses + 1 }) := by
    unfold TranslationCache.Get
    rw [hmiss]
  cases hc : ipc.connected with
  | false => simp [Translate, hget, hc]
  | true =>
    rcases hfail with h | h | h
    · rw [hc] at h
      exact absurd h (by simp)
    · simp [Translate, hget, hc, h]
    · by_cases hr : 0 < ipc.requestId
      · simp [Translate, hget, hc, h, hr]
      · simp [Translate, hget, hc, hr]

theorem translate_ipc_failure_witness :
    alLookup (TranslationCache.mk [] 10000 0 0).entries [72, 105] = none ∧
    ((IPCOutcome.mk true 1 none 5).connected = false ∨
      (IPCOutcome.mk true 1 none 5).requestId = 0 ∨
      (IPCOutcome.mk true 1 none 5).response = none) ∧
    ((Translate true true (TranslationCache.mk [] 10000 0 0)
        (TranslatorStats.mk 0 0 0 0 0) (IPCOutcome.mk true 1 none 5) [72, 105]).1
      = [72, 105] ∧
     (Translate true true (TranslationCache.mk [] 10000 0 0)
        (TranslatorStats.mk 0 0 0 0 0) (IPCOutcome.mk true 1 none 5)
        [72, 105]).2.2.translationErrors
      = (TranslatorStats.mk 0 0 0 0 0).translationErrors
        + (if (IPCOutcome.mk true 1 none 5).connected then 1 else 0)) :=
  ⟨rfl, Or.inr (Or.inr rfl),
   translate_ipc_failure_returns_original (TranslationCache.mk [] 10000 0 0)
     (TranslatorStats.mk 0 0 0 0 0) (IPCOutcome.mk true 1 none 5) [72, 105]
     rfl (Or.inr (Or.inr rfl))⟩

/-- Claim C5: when the header magic differs from `0x47535443` or the
version differs from 1, `LoadFromFile` returns false and the in-memory
entries are returned exactly as they were. -/
theorem load_bad_header_rejected
    (junk : Nat) (bytes r1 r2 : List Nat) (current : List (WStr × WStr))
    (magic version : Nat)
    (hm : read32 bytes = some (magic, r1)) (hv : read32 r1 = some (version, r2))
    (hbad : magic ≠ CACHE_MAGIC ∨ version ≠ 1) :
    LoadFromFile junk bytes current = (false, current) := by
  unfold LoadFromFile
  simp only [read32F, hm, hv]
  rw [if_pos hbad]

theorem load_bad_header_rejected_witness :
    read32 [0, 84, 83, 71, 1, 0, 0, 0, 3, 0, 0, 0]
      = some (1196643328, [1, 0, 0, 0, 3, 0, 0, 0]) ∧
    read32 [1, 0, 0, 0, 3, 0, 0, 0] = some (1, [3, 0, 0, 0]) ∧
    ((1196643328 : Nat) ≠ CACHE_MAGIC ∨ (1 : Nat) ≠ 1) ∧
    LoadFromFile 0 [0, 84, 83, 71, 1, 0, 0, 0, 3, 0, 0, 0] [([65], [66])]
      = (false, [([65], [66])]) :=
  ⟨rfl, rfl, Or.inl (by decide),
   load_bad_header_rejected 0 _ _ _ [([65], [66])] 1196643328 1 rfl rfl
     (Or.inl (by decide))⟩

/-- Claim C6: saving the cache and loading the file back succeeds and
yields the same key-to-value mapping (here: literally the same entry
list, hence lookup-equal as an unordered mapping).  The hypotheses
express that the entries are a real `std::unordered_map` state: unique
keys, lengths representable in the `u32` length fields, 16-bit
`wchar_t` code units. -/
theorem save_load_roundtrip
    (junk : Nat) (entries current : List (WStr × WStr))
    (hnd : (entries.map Prod.fst).Nodup)
    (hcount : entries.length < 2 ^ 32)
    (hwf : ∀ e ∈ entries, e.1.length < 2 ^ 32 ∧ e.2.length < 2 ^ 32 ∧
      (∀ u ∈ e.1, u < 2 ^ 16) ∧ (∀ u ∈ e.2, u < 2 ^ 16)) :
    LoadFromFile junk (SaveToFile entries) current = (true, entries) ∧
    ∀ k, alLookup (LoadFromFile junk (SaveToFile entries) current).2 k
      = alLookup entries k := by
  have hmagic : (CACHE_MAGIC : Nat) < 2 ^ 32 := by decide
  have h1 : read32 (SaveToFile entries)
      = some (CACHE_MAGIC, le32 1 ++ (le32 entries.length ++ entriesBytes entries)) := by
    simp only [SaveToFile, List.append_assoc]
    exact read32_le32 _ _ hmagic
  have h2 : read32 (le32 1 ++ (le32 entries.length ++ entriesBytes entries))
      = some (1, le32 entries.length ++ entriesBytes entries) :=
    read32_le32 _ _ (by decide)
  have h3 : read32 (le32 entries.length ++ entriesBytes entries)
      = some (entries.length, entriesBytes entries) :=
    read32_le32 _ _ hcount
  have hloop := loadEntriesLoop_entriesBytes entries [] hwf hnd (by intro k _; simp)
  have hres : LoadFromFile junk (SaveToFile entries) current = (true, entries) := by
    unfold LoadFromFile
    simp only [read32F, h1, h2, h3]
    rw [if_neg (by simp), hloop]
    simp
  exact ⟨hres, fun k => by rw [hres]⟩

theorem save_load_roundtrip_witness :
    (([( [65, 66], [67] ), ( [68], [] )] : List (WStr × WStr)).map Prod.fst).Nodup ∧
    ([( [65, 66], [67] ), ( [68], [] )] : List (WStr × WStr)).length < 2 ^ 32 ∧
    (∀ e ∈ ([( [65, 66], [67] ), ( [68], [] )] : List (WStr × WStr)),
      e.1.length < 2 ^ 32 ∧ e.2.length < 2 ^ 32 ∧
      (∀ u ∈ e.1, u < 2 ^ 16) ∧ (∀ u ∈ e.2, u < 2 ^ 16)) ∧
    (LoadFromFile 9 (SaveToFile [( [65, 66], [67] ), ( [68], [] )]) [([1], [2])]
        = (true, [( [65, 66], [67] ), ( [68], [] )]) ∧
      ∀ k, alLookup (LoadFromFile 9 (SaveToFile [( [65, 66], [67] ), ( [68], [] )])
            [([1], [2])]).2 k
        = alLookup [( [65, 66], [67] ), ( [68], [] )] k) :=
  ⟨by decide, by decide, by decide,
   save_load_roundtrip 9 [( [65, 66], [67] ), ( [68], [] )] [([1], [2])]
     (by decide) (by decide) (by decide)⟩

/-- Claim C7 (counterexample): a `TRANSLATE_RESPONSE` that arrives
after its waiter timed out is not discarded: the handler stores it in
the pending-response map, where it is retained (the claim asserts the
map never retains an entry for a request whose waiter gave up, so it
requires the final lookup to be `none`). -/
theorem late_response_retained_counterexample :
    (ReceiveTranslateResponse [] 7).1 = false ∧
    alLookup (HandleTranslateResponse (ReceiveTranslateResponse [] 7).2.2 7 [88]) 7
      = some [88] ∧
    alLookup (HandleTranslateResponse (ReceiveTranslateResponse [] 7).2.2 7 [88]) 7
      ≠ none := by
  refine ⟨rfl, rfl, by decide⟩

/-- Claim C7 (amended): on timeout the waiter returns failure and
leaves the pending-response map exactly as it was (the slot is
abandoned, not deleted); a `TRANSLATE_RESPONSE` for that request id
arriving afterwards is inserted into the map and retained there — it is
stored, not discarded, and no waiter remains to consume it. -/
theorem timeout_abandons_slot_late_response_stored
    (pending : List (Nat × WStr)) (requestId : Nat) (translated : WStr)
    (htimeout : alLookup pending requestId = none) :
    ReceiveTranslateResponse pending requestId = (false, [], pending) ∧
    alLookup (HandleTranslateResponse pending requestId translated) requestId
      = some translated := by
  constructor
  · unfold ReceiveTranslateResponse
    rw [htimeout]
  · exact alLookup_alInsert_self _ _ _

theorem timeout_abandons_slot_witness :
    alLookup ([(3, [9])] : List (Nat × WStr)) 7 = none ∧
    (ReceiveTranslateResponse [(3, [9])] 7 = (false, [], [(3, [9])]) ∧
      alLookup (HandleTranslateResponse [(3, [9])] 7 [88, 89]) 7 = some [88, 89]) :=
  ⟨rfl, timeout_abandons_slot_late_response_stored [(3, [9])] 7 [88, 89] rfl⟩

/-- Claim C8 (code bug): a byte-pattern scan with a needle of length 0
does not return an empty match list — the loop
`for (i = 0; i <= bytesRead - pattern.size(); i++)` runs for every
`i ≤ bytesRead` and the empty mask matches everywhere, so a 4-byte
region yields matches at offsets 0 through 4. -/
theorem scan_empty_needle_matches_everywhere :
    ScanMemoryRegion [] [] [10, 20, 30, 40] = some [0, 1, 2, 3, 4] ∧
    ScanMemoryRegion [] [] [10, 20, 30, 40] ≠ some [] := by
  refine ⟨by decide, by decide⟩

/-- Claim C9: starting from `TranslationCache(maxSize)` with
`maxSize ≥ 1`, after every sequence of `Put`/`Get`/`Remove`/`Clear`
operations the entry count is at most `maxSize`; and a `Put` on a full
cache first evicts one existing entry and then inserts, keeping the
count within the bound. -/
theorem cache_size_bounded (maxSize : Nat) (hmax : 1 ≤ maxSize) :
    (∀ ops : List CacheOp, (runCacheOps maxSize ops).Size ≤ maxSize) ∧
    (∀ (c : TranslationCache) (k v : WStr), 1 ≤ c.maxSize → c.Size = c.maxSize →
      (c.Put k v).entries = alInsert (TranslationCache.EvictOldest c.entries) k v ∧
      (c.Put k v).Size ≤ c.maxSize) := by
  constructor
  · intro ops
    exact foldl_cacheOps_invariant maxSize hmax ops ⟨[], maxSize, 0, 0⟩ rfl (by simp)
  · intro c k v h1 h2
    have h2e : c.entries.length = c.maxSize := h2
    constructor
    · unfold TranslationCache.Put
      rw [if_pos (le_of_eq h2e.symm)]
    · exact Put_size_le c k v h1 (le_of_eq h2e)

theorem cache_size_bounded_witness :
    1 ≤ 2 ∧
    ((∀ ops : List CacheOp, (runCacheOps 2 ops).Size ≤ 2) ∧
     (∀ (c : TranslationCache) (k v : WStr), 1 ≤ c.maxSize → c.Size = c.maxSize →
       (c.Put k v).entries = alInsert (TranslationCache.EvictOldest c.entries) k v ∧
       (c.Put k v).Size ≤ c.maxSize)) :=
  ⟨by decide, cache_size_bounded 2 (by decide)⟩

/-- Claim C10: every entry the Unity string-creation detours store in
`g_TranslationCache` has a non-empty value different from its key, so a
cache hit always substitutes a string different from the intercepted
original. -/
theorem unity_cache_values_nonempty_and_differ (ops : List UnityCacheOp) :
    (∀ p ∈ runUnityCacheOps ops, p.2 ≠ [] ∧ p.2 ≠ p.1) ∧
    (∀ k t, alLookup (runUnityCacheOps ops) k = some t → t ≠ [] ∧ t ≠ k) := by
  have main := runUnityCacheOps_foldl_values ops []
    (by intro p hp; exact absurd hp (List.not_mem_nil p))
  refine ⟨main, ?_⟩
  intro k t hl
  exact main (k, t) (alLookup_eq_some_mem hl)

theorem unity_cache_values_witness :
    alLookup (runUnityCacheOps [UnityCacheOp.store [80] [81, 82]]) [80] = some [81, 82] ∧
    (([81, 82] : WStr) ≠ [] ∧ ([81, 82] : WStr) ≠ [80]) :=
  ⟨by decide,
   (unity_cache_values_nonempty_and_differ [UnityCacheOp.store [80] [81, 82]]).2
     [80] [81, 82] (by decide)⟩

end GameStringer
